import Mathlib

/-!
Shallow embedding of the Avro log serializer/deserializer
(`avro_serializer.py`, `avro_deserializer.py`).

Python strings are modelled as `List Char` (the data of a Lean `String`);
ASCII decimal digits model `\d` and `int()` digits (Unicode digit classes
and underscore grouping in `int()` literals are not modelled; every input
appearing in the claims is ASCII).  Python exceptions that escape a
function are modelled with `Except PyExn`.
-/

namespace AvroLog

/-- Python exceptions relevant to this program. -/
inductive PyExn where
  | indexError
  | valueError
  | keyError
deriving DecidableEq

/-! ## Python string helpers -/

/-- Whitespace stripped by Python `int()` / `str.strip()`. -/
def isPySpace (c : Char) : Bool :=
  c = ' ' || c = '\t' || c = '\n' || c = '\r' || c = '\x0b' || c = '\x0c'

/-- Strip leading and trailing whitespace (Python `str.strip()`). -/
def pyStrip (s : List Char) : List Char :=
  ((s.dropWhile isPySpace).reverse.dropWhile isPySpace).reverse

/-- Decimal value of a digit string. -/
def digitsNatVal (ds : List Char) : Nat :=
  ds.foldl (fun a d => a * 10 + (d.toNat - 48)) 0

/-- Is `ds` a nonempty string of ASCII decimal digits? -/
def decDigits (ds : List Char) : Bool :=
  !ds.isEmpty && ds.all Char.isDigit

/-- Python `int(s)`: strip whitespace, optional sign, decimal digits.
`none` models a raised `ValueError`. -/
def pyInt (s : List Char) : Option Int :=
  match pyStrip s with
  | [] => none
  | c :: cs =>
    if c = '+' then
      if decDigits cs then some (digitsNatVal cs : Int) else none
    else if c = '-' then
      if decDigits cs then some (-(digitsNatVal cs : Int)) else none
    else
      if decDigits (c :: cs) then some (digitsNatVal (c :: cs) : Int) else none

/-- Locate the leftmost occurrence of `sep` in `s`; on success return the
text before it and the text after it. -/
def findSplit (sep : List Char) : List Char → Option (List Char × List Char)
  | [] => if sep = [] then some ([], []) else none
  | c :: cs =>
    if sep.isPrefixOf (c :: cs) then some ([], (c :: cs).drop sep.length)
    else
      match findSplit sep cs with
      | some (pre, post) => some (c :: pre, post)
      | none => none

/-- Fueled worker for `pySplit`. -/
def pySplitF (sep : List Char) : Nat → List Char → List (List Char)
  | 0, s => [s]
  | f + 1, s =>
    match findSplit sep s with
    | none => [s]
    | some (pre, post) => pre :: pySplitF sep f post

/-- Python `s.split(sep)` for a nonempty separator: split on every
non-overlapping leftmost occurrence.  The fuel `s.length + 1` is enough
because each split consumes at least one character. -/
def pySplit (sep s : List Char) : List (List Char) :=
  pySplitF sep (s.length + 1) s

/-! ## Regex engine

The two patterns in the source use only literals, `\d` runs, a fixed
timestamp shape, greedy `(\d+)` groups and lazy `(.+?)` / `(.*?)` groups.
The engine below reproduces Python `re.search` semantics for exactly these
constructs: leftmost match position, and within a position a depth-first
backtracking search where greedy groups try longer extents first and lazy
groups try shorter extents first.  `.` matches any character except a
newline. -/

/-- Tokens of the two patterns in the source. -/
inductive Tok where
  /-- A literal run of characters (not captured). -/
  | lits (s : String)
  /-- Capturing group `(\d{4}-\d{2}-\d{2}T\d{2}:\d{2}:\d{2})`, with a
  greedy fractional part `\.\d+` when `frac` is true. -/
  | capTs (frac : Bool)
  /-- Capturing group `(\d+)`, greedy. -/
  | capDigits
  /-- Capturing group `(.+?)`, lazy. -/
  | capLazyPlus
  /-- Capturing group `(.*?)`, lazy. -/
  | capLazyStar
deriving DecidableEq

/-- Length of the maximal run of ASCII digits at the head of `s`. -/
def digRun : List Char → Nat
  | [] => 0
  | c :: cs => if c.isDigit then digRun cs + 1 else 0

/-- Length of the maximal run of non-newline characters at the head of `s`. -/
def nonNlRun : List Char → Nat
  | [] => 0
  | c :: cs => if c = '\n' then 0 else nonNlRun cs + 1

/-- Shape of `\d{4}-\d{2}-\d{2}T\d{2}:\d{2}:\d{2}`: the letter `d` stands
for one ASCII digit, every other character for itself (the literal
characters of the timestamp are never the letter `d`). -/
def tsShape : List Char :=
  ['d', 'd', 'd', 'd', '-', 'd', 'd', '-', 'd', 'd', 'T',
   'd', 'd', ':', 'd', 'd', ':', 'd', 'd']

/-- Match a shape (as in `tsShape`) against the head of `s`. -/
def matchShape : List Char → List Char → Bool
  | [], _ => true
  | _ :: _, [] => false
  | p :: ps, c :: cs => (if p = 'd' then c.isDigit else c = p) && matchShape ps cs

/-- Alternatives of the greedy fractional part `\.\d+` after the fixed
timestamp shape `base`, on the rest of the input: a dot then a digit run,
longest first, capturing `base` together with the fractional part. -/
def fracAlts (base : List Char) : List Char → List (Option (List Char) × List Char)
  | [] => []
  | c0 :: ds =>
    if c0 = '.' then
      (List.range (digRun ds)).map (fun j =>
        (some (base ++ '.' :: ds.take (digRun ds - j)), ds.drop (digRun ds - j)))
    else []

/-- Alternatives of the timestamp group on input `s`, in backtracking
order: the 19-character fixed shape, then (when `frac`) a dot and a greedy
digit run, longest first.  Each alternative is `(captured text, rest)`. -/
def tsAlts (frac : Bool) (s : List Char) : List (Option (List Char) × List Char) :=
  if matchShape tsShape s then
    if frac then fracAlts (s.take 19) (s.drop 19)
    else [(some (s.take 19), s.drop 19)]
  else []

/-- Alternatives of a greedy `(\d+)` on input `s`: digit-run extents,
longest first, each at least one digit. -/
def digAlts (s : List Char) : List (Option (List Char) × List Char) :=
  (List.range (digRun s)).map (fun j =>
    (some (s.take (digRun s - j)), s.drop (digRun s - j)))

/-- Alternatives of a lazy `(.+?)` on input `s`: non-newline extents,
shortest first, each at least one character. -/
def lazyPlusAlts (s : List Char) : List (Option (List Char) × List Char) :=
  (List.range (nonNlRun s)).map (fun j => (some (s.take (j + 1)), s.drop (j + 1)))

/-- Alternatives of a lazy `(.*?)` on input `s`: non-newline extents,
shortest first, starting from the empty extent. -/
def lazyStarAlts (s : List Char) : List (Option (List Char) × List Char) :=
  (List.range (nonNlRun s + 1)).map (fun j => (some (s.take j), s.drop j))

/-- Alternative of a literal run: it must be a prefix of `s`. -/
def litsAlts (p s : List Char) : List (Option (List Char) × List Char) :=
  if p.isPrefixOf s then [(none, s.drop p.length)] else []

/-- All alternatives of one token on input `s`, in backtracking order. -/
def alts : Tok → List Char → List (Option (List Char) × List Char)
  | .lits p, s => litsAlts p.data s
  | .capTs frac, s => tsAlts frac s
  | .capDigits, s => digAlts s
  | .capLazyPlus, s => lazyPlusAlts s
  | .capLazyStar, s => lazyStarAlts s

/-- Prepend an optional capture to a capture list. -/
def consCap (c : Option (List Char)) (caps : List (List Char)) : List (List Char) :=
  match c with
  | some x => x :: caps
  | none => caps

/-- Match a token list against the head of the input, first success in
backtracking order, returning the captures.  The match need not reach the
end of the input (the patterns are unanchored).  The fuel only needs to
cover the token list length: it decreases once per token. -/
def matchToks : Nat → List Tok → List Char → Option (List (List Char))
  | 0, _, _ => none
  | _ + 1, [], _ => some []
  | fuel + 1, t :: ts, s =>
    (alts t s).findSome? (fun a =>
      match matchToks fuel ts a.2 with
      | some caps => some (consCap a.1 caps)
      | none => none)

/-- Try to match at each start position, leftmost first (`re.search`). -/
def searchFrom (pat : List Tok) : List Char → Option (List (List Char))
  | [] => matchToks (pat.length + 1) pat []
  | c :: s =>
    match matchToks (pat.length + 1) pat (c :: s) with
    | some caps => some caps
    | none => searchFrom pat s

/-- Python `re.search(pat, s).groups()`, `none` when there is no match. -/
def research (pat : List Tok) (s : String) : Option (List (List Char)) :=
  searchFrom pat s.data

/-- The pattern of `parse_movie_watch`:
`(\d{4}-\d{2}-\d{2}T\d{2}:\d{2}:\d{2}),(\d+),GET /data/m/(.+?)/(\d+)\.mpg`. -/
def movPat : List Tok :=
  [.capTs false, .lits ",", .capDigits, .lits ",GET /data/m/",
   .capLazyPlus, .lits "/", .capDigits, .lits ".mpg"]

/-- The pattern of `parse_recommendation`:
`(\d{4}-\d{2}-\d{2}T\d{2}:\d{2}:\d{2}\.\d+),(\d+),recommendation request (.*?), status (.*?), result: (.*?), (\d+) ms`. -/
def recPat : List Tok :=
  [.capTs true, .lits ",", .capDigits, .lits ",recommendation request ",
   .capLazyStar, .lits ", status ", .capLazyStar, .lits ", result: ",
   .capLazyStar, .lits ", ", .capDigits, .lits " ms"]

/-! ## Records and parsers -/

/-- Record produced by `parse_movie_watch`. -/
structure MovRecord where
  time : List Char
  userid : Int
  movieid : List Char
  minute : List Char
deriving DecidableEq

/-- Record produced by `parse_recommendation`. -/
structure RecRecord where
  time : List Char
  userid : Int
  server : List Char
  status : Int
  recommendations : List (List Char)
  responsetime : List Char
deriving DecidableEq

/-- Record produced by `parse_rating`. -/
structure RatRecord where
  time : List Char
  userid : Int
  movieid : List Char
  rating : List Char
deriving DecidableEq

/-- Python `movieid.replace('+', ' ')` acts on each character. -/
def plusToSpace (c : Char) : Char := if c = '+' then ' ' else c

/-- `parse_movie_watch`: regex search; on no match print a diagnostic and
return `None` (`.ok none`); on a match build the record.  The pattern has
exactly four groups, so the catch-all capture arm is unreachable; `int()`
on the digit captures cannot fail, so the `valueError` arms are
unreachable as well. -/
def parse_movie_watch (entry : String) : Except PyExn (Option MovRecord) :=
  match research movPat entry with
  | none => .ok none
  | some caps =>
    match caps with
    | [time, userid, movieid, minute] =>
      match pyInt userid with
      | some n => .ok (some ⟨time, n, movieid.map plusToSpace, minute⟩)
      | none => .error .valueError
    | _ => .error .valueError

/-- `parse_recommendation`: regex search; on a match `int(userid)` and
`int(status)` are taken (the `status` group is `(.*?)`, so `int(status)`
can raise `ValueError`), the results are split on `", "`, and the literal
suffix `" ms"` is reattached to the captured response time. -/
def parse_recommendation (log_entry : String) : Except PyExn (Option RecRecord) :=
  match research recPat log_entry with
  | none => .ok none
  | some caps =>
    match caps with
    | [time, userid, server, status, results, responsetime] =>
      match pyInt userid with
      | none => .error .valueError
      | some u =>
        match pyInt status with
        | none => .error .valueError
        | some st =>
          .ok (some ⟨time, u, server, st, pySplit (", ".data) results,
                     responsetime ++ (" ms".data)⟩)
    | _ => .error .valueError

/-- `parse_rating`: split on `','`, take `parts[0]`, `int(parts[1])`,
split `parts[2]` on `'='`, the movie id is the last `'/'`-segment of the
left side and the rating is `movie_rating[1]`.  Missing indices raise
`IndexError` and a non-numeric `parts[1]` raises `ValueError`, exactly as
in the unguarded Python code. -/
def parse_rating (log_entry : String) : Except PyExn RatRecord := do
  let parts := pySplit [','] log_entry.data
  let time := parts.headD []
  let p1 ← match parts.get? 1 with
    | some x => Except.ok x
    | none => Except.error PyExn.indexError
  let userid ← match pyInt p1 with
    | some n => Except.ok n
    | none => Except.error PyExn.valueError
  let p2 ← match parts.get? 2 with
    | some x => Except.ok x
    | none => Except.error PyExn.indexError
  let movie_rating := pySplit ['='] p2
  let movieid := (pySplit ['/'] (movie_rating.headD [])).getLastD []
  let rating ← match movie_rating.get? 1 with
    | some x => Except.ok x
    | none => Except.error PyExn.indexError
  pure ⟨time, userid, movieid, rating⟩

/-! ## Dispatcher

`identify_and_parse_log_entry` returns a Python 2-tuple.  Because the
conditional expression binds tighter than the tuple comma, the line
`return data, recommendation_request_schema if data else (None, None)`
returns `(data, schema)` when `data` is truthy and `(None, (None, None))`
when it is falsy: the second slot is then the nonempty (hence truthy)
tuple `(None, None)`, not `None`.  `SchemaSlot` enumerates the Python
values that can occupy the second slot. -/

/-- Values occupying the schema slot of the dispatcher's result. -/
inductive SchemaSlot where
  | recommendation_request_schema
  | movie_watch_schema
  | movie_rating_schema
  /-- Python `None`. -/
  | noneV
  /-- The Python tuple `(None, None)`. -/
  | nonePair
deriving DecidableEq

/-- Python truthiness of a schema-slot value: `None` is falsy, schema
objects and the nonempty tuple `(None, None)` are truthy. -/
def pyTruthy : SchemaSlot → Bool
  | .noneV => false
  | _ => true

/-- Is the slot one of the three actual schema objects? -/
def isSchema : SchemaSlot → Bool
  | .recommendation_request_schema => true
  | .movie_watch_schema => true
  | .movie_rating_schema => true
  | _ => false

/-- A parsed record of any of the three categories. -/
inductive LogRecord where
  | recommendation (r : RecRecord)
  | movie (r : MovRecord)
  | rating (r : RatRecord)
deriving DecidableEq

/-- `identify_and_parse_log_entry`: dispatch on the tag string.  A parsed
dict is always truthy and `None` is falsy, so the conditional-expression
precedence described above gives `(None, (None, None))` on parse failure.
`parse_rating` either raises or returns a (truthy) dict, so its failure
branch is unreachable.  Unknown tags report the tag and return
`(None, None)`, i.e. `None` in both slots. -/
def identify_and_parse_log_entry (log_type : String) (log_entry : String) :
    Except PyExn (Option LogRecord × SchemaSlot) :=
  if log_type = "Recommendation" then
    match parse_recommendation log_entry with
    | .error e => .error e
    | .ok (some d) => .ok (some (.recommendation d), .recommendation_request_schema)
    | .ok none => .ok (none, .nonePair)
  else if log_type = "Movie" then
    match parse_movie_watch log_entry with
    | .error e => .error e
    | .ok (some d) => .ok (some (.movie d), .movie_watch_schema)
    | .ok none => .ok (none, .nonePair)
  else if log_type = "Rating" then
    match parse_rating log_entry with
    | .error e => .error e
    | .ok d => .ok (some (.rating d), .movie_rating_schema)
  else
    .ok (none, .noneV)

/-! ## Binary codec

Modelled from the spec: the Avro binary codec is an external collaborator
("assumed to be a correct, off-the-shelf implementation of a schema-driven
binary encoding") and the three `.avsc` schema files are not part of
`src/`; field names, types and order follow spec section 3.  The encoding
is the Avro binary format: integers as zigzag varints, strings as a
length-prefixed character run (UTF-8 is abstracted to one symbol per
character; the data is ASCII), arrays as blocks terminated by a zero
count.  The byte stream is a `List Nat`. -/

/-- Fueled base-128 varint encoder, little-endian groups with a
continuation bit. -/
def varintEncF : Nat → Nat → List Nat
  | 0, n => [n % 128]
  | f + 1, n => if n < 128 then [n] else (n % 128 + 128) :: varintEncF f (n / 128)

/-- Base-128 varint encoding of `n` (fuel `n + 1` always suffices). -/
def encodeVarint (n : Nat) : List Nat :=
  varintEncF (n + 1) n

/-- Varint decoder; returns the value and the remaining bytes. -/
def decodeVarint : List Nat → Option (Nat × List Nat)
  | [] => none
  | b :: rest =>
    if b < 128 then some (b, rest)
    else
      match decodeVarint rest with
      | some (m, r) => some (b - 128 + 128 * m, r)
      | none => none

/-- Zigzag of an integer: nonnegative `i` to `2*i`, negative `i` to
`-2*i - 1`. -/
def zigzag (i : Int) : Nat :=
  if 0 ≤ i then (2 * i).toNat else (-(2 * i) - 1).toNat

/-- Inverse of `zigzag`. -/
def unzigzag (n : Nat) : Int :=
  if n % 2 = 0 then ((n / 2 : Nat) : Int) else -(((n + 1) / 2 : Nat) : Int)

/-- Avro `long`: zigzag then varint. -/
def encodeLong (i : Int) : List Nat :=
  encodeVarint (zigzag i)

/-- Decode an Avro `long`. -/
def decodeLong (bs : List Nat) : Option (Int × List Nat) :=
  match decodeVarint bs with
  | some (n, rest) => some (unzigzag n, rest)
  | none => none

/-- Avro `string`: length as a `long`, then the characters. -/
def encodeString (s : List Char) : List Nat :=
  encodeLong (s.length : Int) ++ s.map Char.toNat

/-- Decode an Avro `string`. -/
def decodeString (bs : List Nat) : Option (List Char × List Nat) :=
  match decodeLong bs with
  | some (n, rest) =>
    if 0 ≤ n ∧ n.toNat ≤ rest.length then
      some ((rest.take n.toNat).map Char.ofNat, rest.drop n.toNat)
    else none
  | none => none

/-- Avro `array<string>` as written by the library: one block holding all
the items when there are any, then a zero count. -/
def encodeStringArray (xs : List (List Char)) : List Nat :=
  (if xs.length ≠ 0 then encodeLong (xs.length : Int) ++ (xs.map encodeString).flatten
   else []) ++ encodeLong 0

/-- Decode `n` consecutive strings. -/
def decodeNStrings : Nat → List Nat → Option (List (List Char) × List Nat)
  | 0, bs => some ([], bs)
  | n + 1, bs =>
    match decodeString bs with
    | some (s, rest) =>
      match decodeNStrings n rest with
      | some (ss, r) => some (s :: ss, r)
      | none => none
    | none => none

/-- Fueled block-decoding loop for `array<string>`; negative block counts
are not produced by this writer and are rejected. -/
def decodeStringArrayF : Nat → List Nat → Option (List (List Char) × List Nat)
  | 0, _ => none
  | f + 1, bs =>
    match decodeLong bs with
    | some (n, rest) =>
      if n = 0 then some ([], rest)
      else if 0 < n then
        match decodeNStrings n.toNat rest with
        | some (ss, r) =>
          match decodeStringArrayF f r with
          | some (ss₂, r₂) => some (ss ++ ss₂, r₂)
          | none => none
        | none => none
      else none
    | none => none

/-- Decode an Avro `array<string>`. -/
def decodeStringArray (bs : List Nat) : Option (List (List Char) × List Nat) :=
  decodeStringArrayF (bs.length + 2) bs

/-- Encode a recommendation record against its schema (field order of
spec section 3 and of the source dict). -/
def encodeRecRecord (r : RecRecord) : List Nat :=
  encodeString r.time ++ encodeLong r.userid ++ encodeString r.server ++
    encodeLong r.status ++ encodeStringArray r.recommendations ++
    encodeString r.responsetime

/-- Decode a recommendation record; returns the record and the bytes left. -/
def decodeRecRecord (bs : List Nat) : Option (RecRecord × List Nat) := do
  let (time, bs) ← decodeString bs
  let (userid, bs) ← decodeLong bs
  let (server, bs) ← decodeString bs
  let (status, bs) ← decodeLong bs
  let (recommendations, bs) ← decodeStringArray bs
  let (responsetime, bs) ← decodeString bs
  pure (⟨time, userid, server, status, recommendations, responsetime⟩, bs)

/-- Encode a movie-watch record against its schema. -/
def encodeMovRecord (r : MovRecord) : List Nat :=
  encodeString r.time ++ encodeLong r.userid ++ encodeString r.movieid ++
    encodeString r.minute

/-- Decode a movie-watch record. -/
def decodeMovRecord (bs : List Nat) : Option (MovRecord × List Nat) := do
  let (time, bs) ← decodeString bs
  let (userid, bs) ← decodeLong bs
  let (movieid, bs) ← decodeString bs
  let (minute, bs) ← decodeString bs
  pure (⟨time, userid, movieid, minute⟩, bs)

/-- Encode a rating record against its schema. -/
def encodeRatRecord (r : RatRecord) : List Nat :=
  encodeString r.time ++ encodeLong r.userid ++ encodeString r.movieid ++
    encodeString r.rating

/-- Decode a rating record. -/
def decodeRatRecord (bs : List Nat) : Option (RatRecord × List Nat) := do
  let (time, bs) ← decodeString bs
  let (userid, bs) ← decodeLong bs
  let (movieid, bs) ← decodeString bs
  let (rating, bs) ← decodeString bs
  pure (⟨time, userid, movieid, rating⟩, bs)

/-- `encode_avro(data, schema)` for a recommendation record. -/
def encode_avro_rec (r : RecRecord) : List Nat := encodeRecRecord r

/-- `encode_avro(data, schema)` for a movie-watch record. -/
def encode_avro_mov (r : MovRecord) : List Nat := encodeMovRecord r

/-- `encode_avro(data, schema)` for a rating record. -/
def encode_avro_rat (r : RatRecord) : List Nat := encodeRatRecord r

/-! ## Batch reader (`avro_deserializer.py`) -/

/-- `decode_avro(binary_data, schema)`: `DatumReader.read` decodes exactly
one datum from the head of the stream and ignores any trailing bytes. -/
def decode_avro_rec (binary_data : List Nat) : Option RecRecord :=
  match decodeRecRecord binary_data with
  | some (r, _) => some r
  | none => none

/-- `decode_avro` for the movie-watch schema: one datum, trailing bytes
ignored. -/
def decode_avro_mov (binary_data : List Nat) : Option MovRecord :=
  match decodeMovRecord binary_data with
  | some (r, _) => some r
  | none => none

/-- `decode_avro` for the rating schema: one datum, trailing bytes
ignored. -/
def decode_avro_rat (binary_data : List Nat) : Option RatRecord :=
  match decodeRatRecord binary_data with
  | some (r, _) => some r
  | none => none

/-- `read_from_avro` for the movie-watch file: the source reads the whole
file into memory, calls `decode_avro` once, and prints the single result,
so the sequence of records surfaced to the caller is that one decoded
record (a failing underlying read surfaces nothing). -/
def read_from_avro_mov (binary_data : List Nat) : List MovRecord :=
  match decode_avro_mov binary_data with
  | some r => [r]
  | none => []

/-! ## Batch writer (`avro_serializer.py` main loop) -/

/-- The three per-category output streams; each element is the byte blob
of one `write` call, in row order. -/
structure Outs where
  recOut : List (List Nat)
  movOut : List (List Nat)
  ratOut : List (List Nat)
deriving DecidableEq

/-- `encode_avro(parsed_data, schema)` in the loop: the dispatcher always
pairs a record with its own category's schema, so encoding is by the
record's category. -/
def encodeLogRecord : LogRecord → List Nat
  | .recommendation r => encodeRecRecord r
  | .movie r => encodeMovRecord r
  | .rating r => encodeRatRecord r

/-- `file_objects[row['Type']].write(...)`: pick the output stream by the
row's tag; an unknown tag would raise `KeyError` (unreachable, since an
unknown tag never has a truthy parse). -/
def writeOut (ty : String) (blob : List Nat) : Option (Outs → Outs) :=
  if ty = "Recommendation" then some (fun o => { o with recOut := blob :: o.recOut })
  else if ty = "Movie" then some (fun o => { o with movOut := blob :: o.movOut })
  else if ty = "Rating" then some (fun o => { o with ratOut := blob :: o.ratOut })
  else none

/-- The serializer's loop over the CSV rows (each row is its `Type` tag
and its `Log Entry` text).  A row writes its encoded record when the
parsed data is not `None` and the schema slot is truthy, is skipped with a
diagnostic otherwise, and an uncaught exception aborts the batch, keeping
the bytes already written and leaving later rows unprocessed. -/
def runBatch : List (String × String) → Outs × Option PyExn
  | [] => (⟨[], [], []⟩, none)
  | (ty, line) :: rest =>
    match identify_and_parse_log_entry ty line with
    | .error e => (⟨[], [], []⟩, some e)
    | .ok (data, schema) =>
      match data with
      | some r =>
        if pyTruthy schema then
          match writeOut ty (encodeLogRecord r) with
          | none => (⟨[], [], []⟩, some .keyError)
          | some push =>
            let p := runBatch rest
            (push p.1, p.2)
        else runBatch rest
      | none => runBatch rest

/-! ## Helper lemmas -/

theorem findSome?_ex {α β} {f : α → Option β} {l : List α} {b : β}
    (h : l.findSome? f = some b) : ∃ a, a ∈ l ∧ f a = some b := by
  induction l with
  | nil => simp [List.findSome?_nil] at h
  | cons a l ih =>
    rw [List.findSome?_cons] at h
    cases hfa : f a with
    | some c =>
      rw [hfa] at h
      exact ⟨a, List.mem_cons_self a l, hfa.trans h⟩
    | none =>
      rw [hfa] at h
      obtain ⟨x, hx, hfx⟩ := ih h
      exact ⟨x, List.mem_cons_of_mem _ hx, hfx⟩

theorem findSome?_isSome {α β} {f : α → Option β} {l : List α} {a : α}
    (ha : a ∈ l) (hfa : (f a).isSome = true) : (l.findSome? f).isSome = true := by
  induction l with
  | nil => simp at ha
  | cons x l ih =>
    rw [List.findSome?_cons]
    cases hfx : f x with
    | some c => simp
    | none =>
      rcases List.mem_cons.mp ha with rfl | ha2
      · rw [hfx] at hfa; simp at hfa
      · exact ih ha2

theorem digRun_le_length : ∀ s : List Char, digRun s ≤ s.length
  | [] => Nat.le_refl 0
  | c :: cs => by
    rw [digRun]
    split
    · exact Nat.succ_le_succ (digRun_le_length cs)
    · exact Nat.zero_le _

theorem digRun_take_all : ∀ (s : List Char) (k : Nat), k ≤ digRun s →
    ∀ c ∈ s.take k, c.isDigit = true := by
  intro s
  induction s with
  | nil => intro k hk c hc; simp at hc
  | cons d ds ih =>
    intro k hk c hc
    rw [digRun] at hk
    by_cases hd : d.isDigit
    · rw [if_pos hd] at hk
      cases k with
      | zero => simp at hc
      | succ k =>
        rw [List.take_succ_cons] at hc
        rcases List.mem_cons.mp hc with rfl | hc2
        · exact hd
        · exact ih k (Nat.le_of_succ_le_succ hk) c hc2
    · rw [if_neg hd] at hk
      interval_cases k
      simp at hc

theorem digRun_append_le : ∀ (s post : List Char), digRun s ≤ digRun (s ++ post)
  | [], _ => Nat.zero_le _
  | c :: cs, post => by
    rw [List.cons_append, digRun, digRun]
    split
    · exact Nat.succ_le_succ (digRun_append_le cs post)
    · exact Nat.le_refl 0

theorem nonNlRun_le_length : ∀ s : List Char, nonNlRun s ≤ s.length
  | [] => Nat.le_refl 0
  | c :: cs => by
    rw [nonNlRun]
    split
    · exact Nat.zero_le _
    · exact Nat.succ_le_succ (nonNlRun_le_length cs)

theorem nonNlRun_append_le : ∀ (s post : List Char), nonNlRun s ≤ nonNlRun (s ++ post)
  | [], _ => Nat.zero_le _
  | c :: cs, post => by
    rw [List.cons_append, nonNlRun, nonNlRun]
    split
    · exact Nat.le_refl 0
    · exact Nat.succ_le_succ (nonNlRun_append_le cs post)

theorem matchShape_length : ∀ p s : List Char, matchShape p s = true →
    p.length ≤ s.length
  | [], _, _ => Nat.zero_le _
  | p :: ps, [], h => by simp [matchShape] at h
  | p :: ps, c :: cs, h => by
    rw [matchShape, Bool.and_eq_true] at h
    exact Nat.succ_le_succ (matchShape_length ps cs h.2)

theorem matchShape_append : ∀ p s : List Char, matchShape p s = true →
    ∀ post, matchShape p (s ++ post) = true
  | [], _, _, _ => rfl
  | p :: ps, [], h, _ => by simp [matchShape] at h
  | p :: ps, c :: cs, h, post => by
    rw [matchShape, Bool.and_eq_true] at h
    rw [List.cons_append, matchShape, Bool.and_eq_true]
    exact ⟨h.1, matchShape_append ps cs h.2 post⟩

theorem isPrefixOf_append {p : List Char} : ∀ {s : List Char}, p.isPrefixOf s = true →
    ∀ post, p.isPrefixOf (s ++ post) = true := by
  induction p with
  | nil => intro s h post; simp [List.isPrefixOf]
  | cons c cs ih =>
    intro s h post
    cases s with
    | nil => simp [List.isPrefixOf] at h
    | cons d ds =>
      rw [List.cons_append]
      rw [List.isPrefixOf, Bool.and_eq_true] at h ⊢
      exact ⟨h.1, ih h.2 post⟩

theorem isPrefixOf_length {p : List Char} : ∀ {s : List Char}, p.isPrefixOf s = true →
    p.length ≤ s.length := by
  induction p with
  | nil => intro s h; simp
  | cons c cs ih =>
    intro s h
    cases s with
    | nil => simp [List.isPrefixOf] at h
    | cons d ds =>
      rw [List.isPrefixOf, Bool.and_eq_true] at h
      exact Nat.succ_le_succ (ih h.2)

/-- Membership in a greedy alternative list `(range m).map (fun j => F (m - j))`
is membership at some extent `k` with `1 ≤ k ≤ m`. -/
theorem mem_range_sub_map {α} (F : Nat → α) (m : Nat) (a : α) :
    a ∈ (List.range m).map (fun j => F (m - j)) ↔ ∃ k, 1 ≤ k ∧ k ≤ m ∧ a = F k := by
  rw [List.mem_map]
  constructor
  · rintro ⟨j, hj, rfl⟩
    rw [List.mem_range] at hj
    exact ⟨m - j, by omega, by omega, rfl⟩
  · rintro ⟨k, h1, h2, rfl⟩
    refine ⟨m - k, List.mem_range.mpr (by omega), ?_⟩
    rw [Nat.sub_sub_self h2]

/-! ## Capture invariants of the engine -/

/-- Does the token capture? -/
def isCapTok : Tok → Bool
  | .lits _ => false
  | _ => true

/-- What is always true of the text captured by one token. -/
def tokCapSpec : Tok → List Char → Prop
  | .capDigits, c => c ≠ [] ∧ ∀ x ∈ c, x.isDigit = true
  | _, _ => True

theorem fracAlts_shape {base r : List Char} {a : Option (List Char) × List Char}
    (h : a ∈ fracAlts base r) : ∃ c, a.1 = some c := by
  cases r with
  | nil => simp [fracAlts] at h
  | cons c0 ds =>
    rw [fracAlts] at h
    split at h
    · rw [List.mem_map] at h
      obtain ⟨j, _, rfl⟩ := h
      exact ⟨_, rfl⟩
    · simp at h

theorem alts_shape {t : Tok} {s : List Char} {a : Option (List Char) × List Char}
    (h : a ∈ alts t s) :
    (isCapTok t = false → a.1 = none) ∧
    (isCapTok t = true → ∃ c, a.1 = some c ∧ tokCapSpec t c) := by
  cases t with
  | lits p =>
    refine ⟨fun _ => ?_, fun hc => by simp [isCapTok] at hc⟩
    rw [alts, litsAlts] at h
    split at h
    · rcases List.mem_singleton.mp h with rfl; rfl
    · simp at h
  | capTs frac =>
    refine ⟨fun hc => by simp [isCapTok] at hc, fun _ => ?_⟩
    rw [alts, tsAlts] at h
    split at h
    · split at h
      · obtain ⟨c, hc⟩ := fracAlts_shape h
        exact ⟨c, hc, trivial⟩
      · rcases List.mem_singleton.mp h with rfl
        exact ⟨_, rfl, trivial⟩
    · simp at h
  | capDigits =>
    refine ⟨fun hc => by simp [isCapTok] at hc, fun _ => ?_⟩
    rw [alts, digAlts] at h
    rw [mem_range_sub_map (fun k => ((some (s.take k), s.drop k) :
      Option (List Char) × List Char))] at h
    obtain ⟨k, hk1, hk2, rfl⟩ := h
    refine ⟨s.take k, rfl, ?_, digRun_take_all s k hk2⟩
    have hlen : k ≤ s.length := Nat.le_trans hk2 (digRun_le_length s)
    intro hnil
    have hlt := congrArg List.length hnil
    rw [List.length_take] at hlt
    simp only [List.length_nil] at hlt
    omega
  | capLazyPlus =>
    refine ⟨fun hc => by simp [isCapTok] at hc, fun _ => ?_⟩
    rw [alts, lazyPlusAlts, List.mem_map] at h
    obtain ⟨j, _, rfl⟩ := h
    exact ⟨_, rfl, trivial⟩
  | capLazyStar =>
    refine ⟨fun hc => by simp [isCapTok] at hc, fun _ => ?_⟩
    rw [alts, lazyStarAlts, List.mem_map] at h
    obtain ⟨j, _, rfl⟩ := h
    exact ⟨_, rfl, trivial⟩

/-- Every successful match produces one capture per capturing token, each
satisfying its token's invariant. -/
theorem matchToks_capsSpec : ∀ (fuel : Nat) (ts : List Tok) (s : List Char)
    (caps : List (List Char)), matchToks fuel ts s = some caps →
    List.Forall₂ tokCapSpec (ts.filter isCapTok) caps := by
  intro fuel
  induction fuel with
  | zero => intro ts s caps h; simp [matchToks] at h
  | succ fuel ih =>
    intro ts s caps h
    cases ts with
    | nil =>
      rw [matchToks] at h
      cases h
      exact List.Forall₂.nil
    | cons t ts =>
      rw [matchToks] at h
      obtain ⟨a, ha, hfa⟩ := findSome?_ex h
      cases hmt : matchToks fuel ts a.2 with
      | none => rw [hmt] at hfa; simp at hfa
      | some caps₂ =>
        rw [hmt] at hfa
        have hc : consCap a.1 caps₂ = caps := by
          simpa using hfa
        have hspec := ih ts a.2 caps₂ hmt
        have hshape := alts_shape ha
        cases hcap : isCapTok t with
        | false =>
          rw [hshape.1 hcap] at hc
          rw [consCap] at hc
          subst hc
          rw [List.filter_cons_of_neg (by simp [hcap])]
          exact hspec
        | true =>
          obtain ⟨c, hac, hcs⟩ := hshape.2 hcap
          rw [hac] at hc
          rw [consCap] at hc
          subst hc
          rw [List.filter_cons_of_pos (by simp [hcap])]
          exact List.Forall₂.cons hcs hspec

theorem searchFrom_suffix {pat : List Tok} : ∀ {s : List Char} {caps},
    searchFrom pat s = some caps →
    ∃ n, n ≤ s.length ∧ matchToks (pat.length + 1) pat (s.drop n) = some caps := by
  intro s
  induction s with
  | nil => intro caps h; exact ⟨0, Nat.le_refl 0, h⟩
  | cons c s ih =>
    intro caps h
    rw [searchFrom] at h
    cases hmt : matchToks (pat.length + 1) pat (c :: s) with
    | some caps₂ =>
      rw [hmt] at h
      cases h
      exact ⟨0, Nat.zero_le _, hmt⟩
    | none =>
      rw [hmt] at h
      obtain ⟨n, hn, hm⟩ := ih h
      exact ⟨n + 1, by simpa using Nat.succ_le_succ hn, hm⟩

theorem searchFrom_isSome {pat : List Tok} : ∀ (s : List Char) (n : Nat),
    (matchToks (pat.length + 1) pat (s.drop n)).isSome = true →
    (searchFrom pat s).isSome = true := by
  intro s
  induction s with
  | nil => intro n h; simpa [searchFrom] using h
  | cons c s ih =>
    intro n h
    rw [searchFrom]
    cases hmt : matchToks (pat.length + 1) pat (c :: s) with
    | some caps => simp
    | none =>
      cases n with
      | zero => rw [List.drop_zero] at h; rw [hmt] at h; simp at h
      | succ n => exact ih n h

/-! ## Append stability: a successful search still succeeds on
`pre ++ s ++ post` (the patterns are unanchored and free of lookahead) -/

theorem mem_alts_append {t : Tok} {s post : List Char}
    {a : Option (List Char) × List Char} (h : a ∈ alts t s) :
    (a.1, a.2 ++ post) ∈ alts t (s ++ post) := by
  cases t with
  | lits p =>
    rw [alts, litsAlts] at h ⊢
    split at h
    case isTrue hpre =>
      rcases List.mem_singleton.mp h with rfl
      rw [if_pos (isPrefixOf_append hpre post), List.mem_singleton]
      dsimp only
      rw [List.drop_append_of_le_length (isPrefixOf_length hpre)]
    case isFalse => simp at h
  | capDigits =>
    rw [alts, digAlts] at h ⊢
    rw [mem_range_sub_map (fun k =>
      ((some (s.take k), s.drop k) : Option (List Char) × List Char))] at h
    obtain ⟨k, hk1, hk2, rfl⟩ := h
    rw [mem_range_sub_map (fun k =>
      ((some ((s ++ post).take k), (s ++ post).drop k) :
        Option (List Char) × List Char))]
    refine ⟨k, hk1, Nat.le_trans hk2 (digRun_append_le s post), ?_⟩
    have hlen : k ≤ s.length := Nat.le_trans hk2 (digRun_le_length s)
    dsimp only
    rw [List.take_append_of_le_length hlen, List.drop_append_of_le_length hlen]
  | capLazyPlus =>
    rw [alts, lazyPlusAlts, List.mem_map] at h
    obtain ⟨j, hj, rfl⟩ := h
    rw [List.mem_range] at hj
    have hlen : j + 1 ≤ s.length :=
      Nat.le_trans (Nat.succ_le_of_lt hj) (nonNlRun_le_length s)
    rw [alts, lazyPlusAlts, List.mem_map]
    refine ⟨j, List.mem_range.mpr (Nat.lt_of_lt_of_le hj (nonNlRun_append_le s post)), ?_⟩
    dsimp only
    rw [List.take_append_of_le_length hlen, List.drop_append_of_le_length hlen]
  | capLazyStar =>
    rw [alts, lazyStarAlts, List.mem_map] at h
    obtain ⟨j, hj, rfl⟩ := h
    rw [List.mem_range] at hj
    have hj2 : j ≤ nonNlRun s := Nat.lt_succ_iff.mp hj
    have hlen : j ≤ s.length := Nat.le_trans hj2 (nonNlRun_le_length s)
    rw [alts, lazyStarAlts, List.mem_map]
    refine ⟨j, List.mem_range.mpr ?_, ?_⟩
    · have := nonNlRun_append_le s post
      omega
    · dsimp only
      rw [List.take_append_of_le_length hlen, List.drop_append_of_le_length hlen]
  | capTs frac =>
    rw [alts, tsAlts] at h ⊢
    split at h
    case isTrue hms =>
      have h19 : 19 ≤ s.length := by
        have := matchShape_length tsShape s hms
        simpa [tsShape] using this
      rw [if_pos (matchShape_append tsShape s hms post)]
      split at h
      case isTrue hfrac =>
        rw [if_pos hfrac]
        rw [List.take_append_of_le_length h19,
            List.drop_append_of_le_length h19]
        cases hd : s.drop 19 with
        | nil => rw [hd] at h; simp [fracAlts] at h
        | cons c0 ds =>
          rw [hd] at h
          rw [List.cons_append, fracAlts]
          rw [fracAlts] at h
          split at h
          case isTrue hc0 =>
            rw [if_pos hc0]
            rw [mem_range_sub_map (fun k =>
              ((some (s.take 19 ++ '.' :: ds.take k), ds.drop k) :
                Option (List Char) × List Char))] at h
            obtain ⟨k, hk1, hk2, rfl⟩ := h
            rw [mem_range_sub_map (fun k =>
              ((some (s.take 19 ++ '.' :: (ds ++ post).take k), (ds ++ post).drop k) :
                Option (List Char) × List Char))]
            refine ⟨k, hk1, Nat.le_trans hk2 (digRun_append_le ds post), ?_⟩
            have hlen : k ≤ ds.length := Nat.le_trans hk2 (digRun_le_length ds)
            dsimp only
            rw [List.take_append_of_le_length hlen, List.drop_append_of_le_length hlen]
          case isFalse => simp at h
      case isFalse hfrac =>
        rw [if_neg hfrac]
        rcases List.mem_singleton.mp h with rfl
        dsimp only
        rw [List.mem_singleton, List.take_append_of_le_length h19,
            List.drop_append_of_le_length h19]
    case isFalse => simp at h

theorem matchToks_append {post : List Char} : ∀ {fuel : Nat} {ts : List Tok}
    {s : List Char} {caps : List (List Char)},
    matchToks fuel ts s = some caps →
    (matchToks fuel ts (s ++ post)).isSome = true := by
  intro fuel
  induction fuel with
  | zero => intro ts s caps h; simp [matchToks] at h
  | succ fuel ih =>
    intro ts s caps h
    cases ts with
    | nil => simp [matchToks]
    | cons t ts =>
      rw [matchToks] at h
      obtain ⟨a, ha, hfa⟩ := findSome?_ex h
      cases hmt : matchToks fuel ts a.2 with
      | none => rw [hmt] at hfa; simp at hfa
      | some caps₂ =>
        have hside := ih hmt
        rw [matchToks]
        apply findSome?_isSome (mem_alts_append ha)
        obtain ⟨caps₃, hc3⟩ := Option.isSome_iff_exists.mp hside
        simp [hc3]

theorem research_append {pat : List Tok} {pre entry post : String}
    {caps : List (List Char)} (h : research pat entry = some caps) :
    (research pat (pre ++ entry ++ post)).isSome = true := by
  obtain ⟨n, hn, hm⟩ := searchFrom_suffix h
  have h1 : (matchToks (pat.length + 1) pat (entry.data.drop n ++ post.data)).isSome = true :=
    matchToks_append hm
  rw [research, String.data_append, String.data_append]
  apply searchFrom_isSome _ (pre.data.length + n)
  have heq : (pre.data ++ entry.data ++ post.data).drop (pre.data.length + n)
      = entry.data.drop n ++ post.data := by
    rw [List.append_assoc]
    rw [show (pre.data ++ (entry.data ++ post.data)).drop (pre.data.length + n)
        = (entry.data ++ post.data).drop n from by
      simp [List.drop_append_eq_append_drop]]
    exact List.drop_append_of_le_length hn
  rw [heq]
  exact h1

/-! ## `int()` on pure digit strings -/

theorem isDigit_not_pySpace {c : Char} (h : c.isDigit = true) : isPySpace c = false := by
  cases hsp : isPySpace c with
  | false => rfl
  | true =>
    exfalso
    simp only [isPySpace, Bool.or_eq_true, decide_eq_true_eq] at hsp
    obtain ((((rfl | rfl) | rfl) | rfl) | rfl) | rfl := hsp <;> exact absurd h (by decide)

theorem pyStrip_digits {ds : List Char} (h : ∀ c ∈ ds, c.isDigit = true) :
    pyStrip ds = ds := by
  unfold pyStrip
  have h1 : ds.dropWhile isPySpace = ds := by
    cases ds with
    | nil => rfl
    | cons c cs =>
      rw [List.dropWhile_cons, isDigit_not_pySpace (h c (by simp))]
      simp
  rw [h1]
  have h2 : ds.reverse.dropWhile isPySpace = ds.reverse := by
    cases hr : ds.reverse with
    | nil => rfl
    | cons c cs =>
      have hc : c ∈ ds := by
        rw [← List.mem_reverse, hr]
        simp
      rw [List.dropWhile_cons, isDigit_not_pySpace (h c hc)]
      simp
  rw [h2, List.reverse_reverse]

theorem pyInt_decDigits {ds : List Char} (h : decDigits ds = true) :
    pyInt ds = some ((digitsNatVal ds : Nat) : Int) := by
  have hall : ∀ c ∈ ds, c.isDigit = true := by
    rw [decDigits, Bool.and_eq_true] at h
    simpa [List.all_eq_true] using h.2
  have hne : ds ≠ [] := by
    rw [decDigits, Bool.and_eq_true] at h
    simpa using h.1
  obtain ⟨c, cs, rfl⟩ := List.exists_cons_of_ne_nil hne
  have hc : c.isDigit = true := hall c (by simp)
  have hplus : ¬(c = '+') := by rintro rfl; exact absurd hc (by decide)
  have hminus : ¬(c = '-') := by rintro rfl; exact absurd hc (by decide)
  unfold pyInt
  rw [pyStrip_digits hall]
  simp [hplus, hminus, h]

/-! ## Captures of the movie-watch pattern -/

theorem movPat_caps {s : List Char} {caps : List (List Char)}
    (h : matchToks (movPat.length + 1) movPat s = some caps) :
    ∃ t u m mi, caps = [t, u, m, mi] ∧ decDigits u = true ∧ decDigits mi = true := by
  have hspec := matchToks_capsSpec _ _ _ _ h
  have hf : movPat.filter isCapTok =
      [Tok.capTs false, Tok.capDigits, Tok.capLazyPlus, Tok.capDigits] := rfl
  rw [hf] at hspec
  rcases hspec with _ | ⟨hc1, hrest⟩
  rcases hrest with _ | ⟨hc2, hrest⟩
  rcases hrest with _ | ⟨hc3, hrest⟩
  rcases hrest with _ | ⟨hc4, hnil⟩
  cases hnil
  obtain ⟨hne2, hdig2⟩ := hc2
  obtain ⟨hne4, hdig4⟩ := hc4
  refine ⟨_, _, _, _, rfl, ?_, ?_⟩
  · rw [decDigits, Bool.and_eq_true]
    constructor
    · simpa using hne2
    · simpa [List.all_eq_true] using hdig2
  · rw [decDigits, Bool.and_eq_true]
    constructor
    · simpa using hne4
    · simpa [List.all_eq_true] using hdig4

/-- A successful search with the movie-watch pattern always yields four
captures and a successful parse whose fields are the captures, with
`userid` the decimal value of the digits and `'+'` replaced by `' '` in
the movie id. -/
theorem parse_movie_watch_of_research {entry : String} {caps : List (List Char)}
    (h : research movPat entry = some caps) :
    ∃ t u m mi, caps = [t, u, m, mi] ∧
      parse_movie_watch entry =
        .ok (some ⟨t, ((digitsNatVal u : Nat) : Int), m.map plusToSpace, mi⟩) := by
  obtain ⟨n, hn, hm⟩ := searchFrom_suffix h
  obtain ⟨t, u, m, mi, rfl, hu, hmi⟩ := movPat_caps hm
  refine ⟨t, u, m, mi, rfl, ?_⟩
  simp [parse_movie_watch, h, pyInt_decDigits hu]

/-! ## Codec roundtrip lemmas -/

theorem varintEncF_roundtrip : ∀ (fuel n : Nat) (rest : List Nat), n < fuel →
    decodeVarint (varintEncF fuel n ++ rest) = some (n, rest) := by
  intro fuel
  induction fuel with
  | zero => intro n rest h; omega
  | succ f ih =>
    intro n rest h
    rw [varintEncF]
    by_cases h128 : n < 128
    · rw [if_pos h128]
      simp [decodeVarint, h128]
    · rw [if_neg h128, List.cons_append, decodeVarint,
          if_neg (by omega : ¬(n % 128 + 128 < 128))]
      simp only [ih (n / 128) rest (by omega)]
      exact congrArg (fun z => some (z, rest)) (by omega)

theorem encodeVarint_roundtrip (n : Nat) (rest : List Nat) :
    decodeVarint (encodeVarint n ++ rest) = some (n, rest) :=
  varintEncF_roundtrip (n + 1) n rest (Nat.lt_succ_self n)

theorem unzigzag_zigzag (i : Int) : unzigzag (zigzag i) = i := by
  unfold zigzag unzigzag
  split <;> split <;> omega

theorem encodeLong_roundtrip (i : Int) (rest : List Nat) :
    decodeLong (encodeLong i ++ rest) = some (i, rest) := by
  rw [encodeLong, decodeLong]
  simp only [encodeVarint_roundtrip]
  exact congrArg (fun z => some (z, rest)) (unzigzag_zigzag i)

theorem map_ofNat_toNat (s : List Char) : (s.map Char.toNat).map Char.ofNat = s := by
  induction s with
  | nil => rfl
  | cons c cs ih => simp [Char.ofNat_toNat, ih]

theorem encodeString_roundtrip (s : List Char) (rest : List Nat) :
    decodeString (encodeString s ++ rest) = some (s, rest) := by
  rw [encodeString, List.append_assoc, decodeString]
  simp only [encodeLong_roundtrip]
  have hcond : 0 ≤ (s.length : Int) ∧
      ((s.length : Int)).toNat ≤ (s.map Char.toNat ++ rest).length := by
    refine ⟨Int.natCast_nonneg s.length, ?_⟩
    simp
  rw [if_pos hcond]
  have hm : (s.map Char.toNat).length = s.length := by simp
  simp only [Int.toNat_natCast]
  rw [← hm, List.take_left, List.drop_left, map_ofNat_toNat]

theorem decodeNStrings_roundtrip : ∀ (xs : List (List Char)) (rest : List Nat),
    decodeNStrings xs.length ((xs.map encodeString).flatten ++ rest) = some (xs, rest) := by
  intro xs
  induction xs with
  | nil => intro rest; simp [decodeNStrings]
  | cons x xs ih =>
    intro rest
    rw [List.map_cons, List.flatten_cons, List.length_cons, List.append_assoc,
        decodeNStrings]
    simp only [encodeString_roundtrip, ih]

theorem decodeStringArrayF_roundtrip (xs : List (List Char)) (rest : List Nat) :
    ∀ f, 2 ≤ f → decodeStringArrayF f (encodeStringArray xs ++ rest) = some (xs, rest) := by
  intro f hf
  cases xs with
  | nil =>
    cases f with
    | zero => omega
    | succ f =>
      rw [encodeStringArray]
      simp only [List.length_nil, ne_eq, not_true_eq_false, if_false, List.nil_append]
      rw [decodeStringArrayF]
      simp only [encodeLong_roundtrip]
      simp
  | cons x xs =>
    cases f with
    | zero => omega
    | succ f =>
      rw [encodeStringArray]
      rw [if_pos (by simp)]
      rw [List.append_assoc, List.append_assoc, decodeStringArrayF]
      simp only [encodeLong_roundtrip]
      rw [if_neg (by
        simp only [List.length_cons]
        omega), if_pos (by
        simp only [List.length_cons]
        omega)]
      simp only [Int.toNat_natCast, decodeNStrings_roundtrip]
      cases f with
      | zero => omega
      | succ f =>
        rw [decodeStringArrayF]
        simp only [encodeLong_roundtrip]
        simp

theorem encodeStringArray_roundtrip (xs : List (List Char)) (rest : List Nat) :
    decodeStringArray (encodeStringArray xs ++ rest) = some (xs, rest) := by
  apply decodeStringArrayF_roundtrip
  omega

theorem encodeMovRecord_roundtrip (r : MovRecord) (rest : List Nat) :
    decodeMovRecord (encodeMovRecord r ++ rest) = some (r, rest) := by
  rw [encodeMovRecord]
  simp [decodeMovRecord, List.append_assoc, encodeString_roundtrip,
        encodeLong_roundtrip]

theorem encodeRatRecord_roundtrip (r : RatRecord) (rest : List Nat) :
    decodeRatRecord (encodeRatRecord r ++ rest) = some (r, rest) := by
  rw [encodeRatRecord]
  simp [decodeRatRecord, List.append_assoc, encodeString_roundtrip,
        encodeLong_roundtrip]

theorem encodeRecRecord_roundtrip (r : RecRecord) (rest : List Nat) :
    decodeRecRecord (encodeRecRecord r ++ rest) = some (r, rest) := by
  rw [encodeRecRecord]
  simp [decodeRecRecord, List.append_assoc, encodeString_roundtrip,
        encodeLong_roundtrip, encodeStringArray_roundtrip]

/-! ## Claim theorems -/

/-- Claim C1: the claim states that every line parser returns either a
record or a parse-failure signal and never raises past its own boundary,
with rating-line structural mismatches and malformed sub-fields recovered
locally.  The code contradicts this: `parse_rating` raises `IndexError`
on a line without two commas or without `'='` in its third part, and
`parse_recommendation` raises `ValueError` on a matched line whose
captured status is not numeric.  This theorem evaluates the parsers at
those failing inputs. -/
theorem C1_code_bug_eval :
    parse_rating "garbage line" = .error .indexError ∧
    parse_rating "2023-08-01T10:17:00,42,/data/m/NoEquals" = .error .indexError ∧
    parse_recommendation
      "2023-08-01T10:15:30.123,42,recommendation request srv1, status OK, result: tt001, 150 ms" =
      .error .valueError :=
  ⟨rfl, rfl, rfl⟩

/-- Claim C2: the claim states that the batch reader decodes records until
the stream is exhausted and surfaces all `n` records.  The code calls
`decode_avro` exactly once, so a file holding two encoded movie-watch
records surfaces only the first: here the byte stream provably contains
the two records back to back, yet `read_from_avro` yields only the first
one. -/
theorem C2_code_bug_eval :
    read_from_avro_mov (encode_avro_mov ⟨"t1".data, 1, "A".data, "3".data⟩ ++
        encode_avro_mov ⟨"t2".data, 2, "B".data, "4".data⟩) =
      [⟨"t1".data, 1, "A".data, "3".data⟩] ∧
    decodeMovRecord (encode_avro_mov ⟨"t1".data, 1, "A".data, "3".data⟩ ++
        encode_avro_mov ⟨"t2".data, 2, "B".data, "4".data⟩) =
      some (⟨"t1".data, 1, "A".data, "3".data⟩,
            encode_avro_mov ⟨"t2".data, 2, "B".data, "4".data⟩) ∧
    decodeMovRecord (encode_avro_mov ⟨"t2".data, 2, "B".data, "4".data⟩) =
      some (⟨"t2".data, 2, "B".data, "4".data⟩, []) :=
  ⟨rfl, rfl, rfl⟩

/-- Claim C3 counterexample: on a known tag whose parser fails, the
dispatcher's schema slot is not absent: it is the Python tuple
`(None, None)` — a truthy value that is not a schema — because the
conditional expression binds tighter than the tuple comma in
`return data, schema if data else (None, None)`. -/
theorem C3_counterexample :
    identify_and_parse_log_entry "Movie" "garbage line" =
      .ok (none, SchemaSlot.nonePair) ∧
    SchemaSlot.nonePair ≠ SchemaSlot.noneV ∧
    pyTruthy SchemaSlot.nonePair = true ∧
    isSchema SchemaSlot.nonePair = false := by
  refine ⟨rfl, by decide, rfl, rfl⟩

/-- Claim C3 (amended): an unknown tag yields `None` for both components;
a known tag whose parser reports failure yields `None` paired with the
tuple `(None, None)` — a truthy non-schema artifact of the conditional
expression precedence — rather than an absent schema; and whenever the
dispatcher returns a present record, the schema slot is an actual schema,
so a caller never receives a schema paired with a failed parse. -/
theorem C3_amended (log_type log_entry : String) :
    (log_type ≠ "Recommendation" → log_type ≠ "Movie" → log_type ≠ "Rating" →
      identify_and_parse_log_entry log_type log_entry = .ok (none, SchemaSlot.noneV)) ∧
    (parse_movie_watch log_entry = .ok none →
      identify_and_parse_log_entry "Movie" log_entry = .ok (none, SchemaSlot.nonePair)) ∧
    (parse_recommendation log_entry = .ok none →
      identify_and_parse_log_entry "Recommendation" log_entry =
        .ok (none, SchemaSlot.nonePair)) ∧
    (∀ d sl, identify_and_parse_log_entry log_type log_entry = .ok (some d, sl) →
      isSchema sl = true) := by
  refine ⟨?_, ?_, ?_, ?_⟩
  · intro h1 h2 h3
    simp [identify_and_parse_log_entry, h1, h2, h3]
  · intro hp
    simp [identify_and_parse_log_entry, hp]
  · intro hp
    simp [identify_and_parse_log_entry, hp]
  · intro d sl h
    rw [identify_and_parse_log_entry] at h
    by_cases h1 : log_type = "Recommendation"
    · rw [if_pos h1] at h
      cases hp : parse_recommendation log_entry with
      | error e => rw [hp] at h; simp at h
      | ok o =>
        rw [hp] at h
        cases o with
        | none => simp at h
        | some r =>
          simp at h
          rw [← h.2]
          rfl
    · rw [if_neg h1] at h
      by_cases h2 : log_type = "Movie"
      · rw [if_pos h2] at h
        cases hp : parse_movie_watch log_entry with
        | error e => rw [hp] at h; simp at h
        | ok o =>
          rw [hp] at h
          cases o with
          | none => simp at h
          | some r =>
            simp at h
            rw [← h.2]
            rfl
      · rw [if_neg h2] at h
        by_cases h3 : log_type = "Rating"
        · rw [if_pos h3] at h
          cases hp : parse_rating log_entry with
          | error e => rw [hp] at h; simp at h
          | ok r =>
            rw [hp] at h
            simp at h
            rw [← h.2]
            rfl
        · rw [if_neg h3] at h
          simp at h

/-- Witness for the amended claim C3, at concrete inputs. -/
theorem C3_amended_witness :
    identify_and_parse_log_entry "Sponge" "x" = .ok (none, SchemaSlot.noneV) ∧
    identify_and_parse_log_entry "Movie" "garbage line" =
      .ok (none, SchemaSlot.nonePair) ∧
    isSchema SchemaSlot.movie_watch_schema = true :=
  ⟨(C3_amended "Sponge" "x").1 (by decide) (by decide) (by decide),
   (C3_amended "Movie" "garbage line").2.1 rfl,
   (C3_amended "Movie" "2023-08-01T10:16:00,42,GET /data/m/The+Matrix/5.mpg").2.2.2
     (LogRecord.movie ⟨"2023-08-01T10:16:00".data, 42, "The Matrix".data, "5".data⟩)
     SchemaSlot.movie_watch_schema rfl⟩

/-- Claim C4: for every line that one of the three parsers successfully
parses, encoding the record against its category's schema and decoding
the bytes with the same schema yields the same record (the binary
round-trip is lossless for all three categories). -/
theorem C4_roundtrip (line : String) (r₁ : RecRecord) (r₂ : MovRecord) (r₃ : RatRecord) :
    (parse_recommendation line = .ok (some r₁) →
      decode_avro_rec (encode_avro_rec r₁) = some r₁) ∧
    (parse_movie_watch line = .ok (some r₂) →
      decode_avro_mov (encode_avro_mov r₂) = some r₂) ∧
    (parse_rating line = .ok r₃ →
      decode_avro_rat (encode_avro_rat r₃) = some r₃) := by
  refine ⟨fun _ => ?_, fun _ => ?_, fun _ => ?_⟩
  · have h := encodeRecRecord_roundtrip r₁ []
    rw [List.append_nil] at h
    rw [decode_avro_rec, encode_avro_rec, h]
  · have h := encodeMovRecord_roundtrip r₂ []
    rw [List.append_nil] at h
    rw [decode_avro_mov, encode_avro_mov, h]
  · have h := encodeRatRecord_roundtrip r₃ []
    rw [List.append_nil] at h
    rw [decode_avro_rat, encode_avro_rat, h]

/-- Witness for claim C4, at the three concrete scenario lines. -/
theorem C4_roundtrip_witness :
    decode_avro_rec (encode_avro_rec ⟨"2023-08-01T10:15:30.123".data, 42, "srv1".data,
        200, ["tt001".data, "tt002".data], "150 ms".data⟩) =
      some ⟨"2023-08-01T10:15:30.123".data, 42, "srv1".data, 200,
            ["tt001".data, "tt002".data], "150 ms".data⟩ ∧
    decode_avro_mov (encode_avro_mov ⟨"2023-08-01T10:16:00".data, 42,
        "The Matrix".data, "5".data⟩) =
      some ⟨"2023-08-01T10:16:00".data, 42, "The Matrix".data, "5".data⟩ ∧
    decode_avro_rat (encode_avro_rat ⟨"2023-08-01T10:17:00".data, 42,
        "Inception".data, "4".data⟩) =
      some ⟨"2023-08-01T10:17:00".data, 42, "Inception".data, "4".data⟩ :=
  ⟨(C4_roundtrip
      "2023-08-01T10:15:30.123,42,recommendation request srv1, status 200, result: tt001, tt002, 150 ms"
      ⟨"2023-08-01T10:15:30.123".data, 42, "srv1".data, 200,
       ["tt001".data, "tt002".data], "150 ms".data⟩
      ⟨"2023-08-01T10:16:00".data, 42, "The Matrix".data, "5".data⟩
      ⟨"2023-08-01T10:17:00".data, 42, "Inception".data, "4".data⟩).1 (by rfl),
   (C4_roundtrip "2023-08-01T10:16:00,42,GET /data/m/The+Matrix/5.mpg"
      ⟨"2023-08-01T10:15:30.123".data, 42, "srv1".data, 200,
       ["tt001".data, "tt002".data], "150 ms".data⟩
      ⟨"2023-08-01T10:16:00".data, 42, "The Matrix".data, "5".data⟩
      ⟨"2023-08-01T10:17:00".data, 42, "Inception".data, "4".data⟩).2.1 (by rfl),
   (C4_roundtrip "2023-08-01T10:17:00,42,/data/m/Inception=4"
      ⟨"2023-08-01T10:15:30.123".data, 42, "srv1".data, 200,
       ["tt001".data, "tt002".data], "150 ms".data⟩
      ⟨"2023-08-01T10:16:00".data, 42, "The Matrix".data, "5".data⟩
      ⟨"2023-08-01T10:17:00".data, 42, "Inception".data, "4".data⟩).2.2 (by rfl)⟩

/-- Claim C5: the claim states that in every batch run each output
stream's record count equals the number of rows of that category whose
parse returned non-failure, and that the batch always continues past
failures.  The code contradicts the universal part: a rating row that
raises `IndexError` aborts the whole batch, so a later movie row that
parses successfully is still missing from the movie stream.  The third
conjunct shows the claim's concrete scenario (a garbage Movie row) does
skip and continue. -/
theorem C5_code_bug_eval :
    runBatch [("Rating", "garbage line"),
      ("Movie", "2023-08-01T10:16:00,42,GET /data/m/The+Matrix/5.mpg")] =
      (⟨[], [], []⟩, some .indexError) ∧
    parse_movie_watch "2023-08-01T10:16:00,42,GET /data/m/The+Matrix/5.mpg" =
      .ok (some ⟨"2023-08-01T10:16:00".data, 42, "The Matrix".data, "5".data⟩) ∧
    runBatch [("Movie", "garbage line")] = (⟨[], [], []⟩, none) :=
  ⟨rfl, rfl, rfl⟩

/-- Claim C6: parsing the scenario-1 line as a recommendation yields
exactly the documented record: `userid` and `status` become integers, the
result list is split on `", "` into an ordered sequence, and the response
time is the captured number with `" ms"` reattached. -/
theorem C6_recommendation_scenario :
    parse_recommendation
      "2023-08-01T10:15:30.123,42,recommendation request srv1, status 200, result: tt001, tt002, 150 ms" =
      .ok (some ⟨"2023-08-01T10:15:30.123".data, 42, "srv1".data, 200,
                 ["tt001".data, "tt002".data], "150 ms".data⟩) := by
  rfl

/-- Claim C7: for every movie-watch line matching the pattern, the record
is built from the four captures: `movieid` is the captured segment with
each `'+'` (and nothing else) replaced by `' '`, `userid` is the decimal
value of the captured digits, and `minute` is kept as a string; the
scenario-2 line yields exactly the documented record. -/
theorem C7_movie_fields (entry : String) (caps : List (List Char))
    (h : research movPat entry = some caps) :
    (∃ t u m mi, caps = [t, u, m, mi] ∧
      parse_movie_watch entry =
        .ok (some ⟨t, ((digitsNatVal u : Nat) : Int), m.map plusToSpace, mi⟩)) ∧
    parse_movie_watch "2023-08-01T10:16:00,42,GET /data/m/The+Matrix/5.mpg" =
      .ok (some ⟨"2023-08-01T10:16:00".data, 42, "The Matrix".data, "5".data⟩) :=
  ⟨parse_movie_watch_of_research h, by rfl⟩

/-- Witness for claim C7, at the scenario-2 line. -/
theorem C7_movie_fields_witness :
    (∃ t u m mi, (["2023-08-01T10:16:00".data, "42".data, "The+Matrix".data,
        "5".data] : List (List Char)) = [t, u, m, mi] ∧
      parse_movie_watch "2023-08-01T10:16:00,42,GET /data/m/The+Matrix/5.mpg" =
        .ok (some ⟨t, ((digitsNatVal u : Nat) : Int), m.map plusToSpace, mi⟩)) ∧
    parse_movie_watch "2023-08-01T10:16:00,42,GET /data/m/The+Matrix/5.mpg" =
      .ok (some ⟨"2023-08-01T10:16:00".data, 42, "The Matrix".data, "5".data⟩) :=
  C7_movie_fields "2023-08-01T10:16:00,42,GET /data/m/The+Matrix/5.mpg"
    ["2023-08-01T10:16:00".data, "42".data, "The+Matrix".data, "5".data] (by rfl)

/-- Claim C8: parsing the scenario-3 line as a rating yields exactly the
documented record: the line splits on `','` into three parts, the third
splits on `'='`, `movieid` is the last `'/'`-segment of the left side and
`rating` is the right side kept as a string. -/
theorem C8_rating_scenario :
    parse_rating "2023-08-01T10:17:00,42,/data/m/Inception=4" =
      .ok ⟨"2023-08-01T10:17:00".data, 42, "Inception".data, "4".data⟩ := by
  rfl

/-- Claim C9 counterexample: prepending text to a parsing line does not
preserve the record: prepending a full matching line makes the leftmost
match fall in the prepended text, yielding a different record. -/
theorem C9_counterexample :
    parse_movie_watch "2023-08-01T10:16:00,42,GET /data/m/A/5.mpg" =
      .ok (some ⟨"2023-08-01T10:16:00".data, 42, "A".data, "5".data⟩) ∧
    parse_movie_watch ("2023-08-01T10:15:00,7,GET /data/m/B/3.mpg " ++
        "2023-08-01T10:16:00,42,GET /data/m/A/5.mpg") =
      .ok (some ⟨"2023-08-01T10:15:00".data, 7, "B".data, "3".data⟩) ∧
    (⟨"2023-08-01T10:15:00".data, 7, "B".data, "3".data⟩ : MovRecord) ≠
      ⟨"2023-08-01T10:16:00".data, 42, "A".data, "5".data⟩ :=
  ⟨rfl, rfl, by decide⟩

/-- Claim C9 (amended): because the searches are unanchored, surrounding
garbage is never rejected: if a line parses, then after prepending and
appending arbitrary text the movie-watch parser still returns some record
(not necessarily the same one, as the leftmost match may lie in the added
text), and the recommendation pattern still finds a match (the parse may
then differ or even raise on a non-numeric status captured earlier). -/
theorem C9_amended (pre post entry : String) :
    (∀ r : MovRecord, parse_movie_watch entry = .ok (some r) →
      ∃ q, parse_movie_watch (pre ++ entry ++ post) = .ok (some q)) ∧
    (∀ r : RecRecord, parse_recommendation entry = .ok (some r) →
      (research recPat (pre ++ entry ++ post)).isSome = true) := by
  constructor
  · intro r h
    cases hres : research movPat entry with
    | none => simp [parse_movie_watch, hres] at h
    | some caps =>
      have hS := @research_append movPat pre entry post caps hres
      obtain ⟨caps₂, h2⟩ := Option.isSome_iff_exists.mp hS
      obtain ⟨t, u, m, mi, _, hp⟩ := parse_movie_watch_of_research h2
      exact ⟨_, hp⟩
  · intro r h
    cases hres : research recPat entry with
    | none => simp [parse_recommendation, hres] at h
    | some caps => exact research_append hres

/-- Witness for the amended claim C9, at concrete surroundings. -/
theorem C9_amended_witness :
    (∃ q, parse_movie_watch ("XX" ++ "2023-08-01T10:16:00,42,GET /data/m/A/5.mpg" ++ "YY") =
      .ok (some q)) ∧
    (research recPat ("XX" ++
        "2023-08-01T10:15:30.123,42,recommendation request srv1, status 200, result: tt001, tt002, 150 ms"
        ++ "YY")).isSome = true :=
  ⟨(C9_amended "XX" "YY" "2023-08-01T10:16:00,42,GET /data/m/A/5.mpg").1
     ⟨"2023-08-01T10:16:00".data, 42, "A".data, "5".data⟩ (by rfl),
   (C9_amended "XX" "YY"
      "2023-08-01T10:15:30.123,42,recommendation request srv1, status 200, result: tt001, tt002, 150 ms").2
     ⟨"2023-08-01T10:15:30.123".data, 42, "srv1".data, 200,
      ["tt001".data, "tt002".data], "150 ms".data⟩ (by rfl)⟩

/-- Claim C10 counterexample: a rating line with more than three
comma-separated parts does not always yield a record: a non-numeric second
part raises `ValueError`, and a third part without `'='` raises
`IndexError`. -/
theorem C10_counterexample :
    parse_rating "a,b,c=1=2,d" = .error .valueError ∧
    parse_rating "a,2,c,d" = .error .indexError :=
  ⟨rfl, rfl⟩

/-- Claim C10 (amended): for every rating line with at least three
comma-separated parts whose second part is a valid integer literal and
whose third part contains at least one `'='`, the parser returns a record
built only from the first three comma parts and the first two
`'='`-segments — extra comma parts and extra `'='`-segments are silently
dropped rather than reported. -/
theorem C10_amended (line : String) (p0 p1 p2 : List Char) (restParts : List (List Char))
    (n : Int) (e0 e1 : List Char) (restEq : List (List Char))
    (hparts : pySplit [','] line.data = p0 :: p1 :: p2 :: restParts)
    (hint : pyInt p1 = some n)
    (heq : pySplit ['='] p2 = e0 :: e1 :: restEq) :
    parse_rating line = .ok ⟨p0, n, (pySplit ['/'] e0).getLastD [], e1⟩ := by
  simp [parse_rating, hparts, hint, heq, Bind.bind, Except.bind, Pure.pure,
        Except.pure]

/-- Witness for the amended claim C10, at a concrete line with four comma
parts and two `'='` in the third part. -/
theorem C10_amended_witness :
    parse_rating "a,5,x/y=7=8,zz" = .ok ⟨"a".data, 5, "y".data, "7".data⟩ :=
  C10_amended "a,5,x/y=7=8,zz" "a".data "5".data "x/y=7=8".data ["zz".data]
    5 "x/y".data "7".data ["8".data] (by rfl) (by rfl) (by rfl)

end AvroLog
